import Mathlib

/-!
Shallow embedding of the Connect-4 engine in `Connect_4_Main_Version.py`
(classes `Connect4Game` and `Connect4AI`), together with proofs checking the
natural-language specification against it.

Boards are row-major lists of rows of integer cells (`board[r][c]`); the
numpy float array of the source holds only the whole numbers 0, 1, 2, so
integer cells are an exact model.  Mutation is modelled by explicit state
passing: functions that mutate a board in the source return the board they
leave behind.
-/

namespace Connect4

/-! ### Constants (source lines 14-28) -/

def PLAYER_HUMAN : Int := 0
def PLAYER_AI : Int := 1
def POSITIVE : Int := 10000000
def NEGATIVE : Int := -10000000
def PIECE_EMPTY : Int := 0
def PIECE_HUMAN : Int := 1
def PIECE_AI : Int := 2
def WINNING_LENGTH : Nat := 4

/-- Board dimensions held by `Connect4Game` (`row_count`, `column_count`). -/
structure Game where
  row_count : Nat
  column_count : Nat
deriving DecidableEq

/-- `board[r][c]`: row-major grid of cells. -/
abbrev Board := List (List Int)

/-- Read cell `board[r][c]`.  All reads performed by the source are in
bounds for a board of the declared dimensions; the default 0 is never
observed there. -/
def cell (b : Board) (r c : Nat) : Int := (b.getD r []).getD c 0

/-- `Connect4Game.create_board`: an all-zero `rows x cols` grid. -/
def create_board (g : Game) : Board :=
  List.replicate g.row_count (List.replicate g.column_count PIECE_EMPTY)

/-- `Connect4Game.place_disc`: `board[row][col] = piece`. -/
def place_disc (b : Board) (r c : Nat) (p : Int) : Board :=
  b.set r ((b.getD r []).set c p)

/-- `Connect4Game.is_column_open` for an in-range column:
`board[row_count - 1][col] == PIECE_EMPTY`. -/
def is_column_open (g : Game) (b : Board) (col : Nat) : Bool :=
  cell b (g.row_count - 1) col == PIECE_EMPTY

/-- `Connect4Game.is_column_open` as called with an arbitrary integer
column index.  The board row is a numpy 1-D array of length
`column_count`, so an index in `[0, cols)` reads directly, an index in
`[-cols, 0)` wraps around to `cols + col`, and anything else raises
`IndexError` (modelled as `Except.error ()`). -/
def is_column_open_checked (g : Game) (b : Board) (col : Int) : Except Unit Bool :=
  if 0 ≤ col ∧ col < (g.column_count : Int) then
    Except.ok (is_column_open g b col.toNat)
  else if -(g.column_count : Int) ≤ col ∧ col < 0 then
    Except.ok (is_column_open g b (col + (g.column_count : Int)).toNat)
  else
    Except.error ()

/-- `Connect4Game.find_open_row`: the first row index (from the bottom,
row 0) whose cell in `col` is empty, or `none`. -/
def find_open_row (g : Game) (b : Board) (col : Nat) : Option Nat :=
  (List.range g.row_count).find? (fun r => cell b r col == PIECE_EMPTY)

/-! ### Four-cell windows

The four direction scans of the source all read four-cell windows; the
helpers below list the cells of one window in the order the source reads
them.  The negative-diagonal windows of `is_winning_pattern` and
`is_near_win` start at row `r+3` (the source iterates `r in range(3, rows)`
and steps `r - i`), which is the same window as the evaluator's
`board[r+3-i][c+i]` scan. -/

def hWindow (b : Board) (r c : Nat) : List Int :=
  [cell b r c, cell b r (c+1), cell b r (c+2), cell b r (c+3)]

def vWindow (b : Board) (r c : Nat) : List Int :=
  [cell b r c, cell b (r+1) c, cell b (r+2) c, cell b (r+3) c]

def pdWindow (b : Board) (r c : Nat) : List Int :=
  [cell b r c, cell b (r+1) (c+1), cell b (r+2) (c+2), cell b (r+3) (c+3)]

def ndWindow (b : Board) (r c : Nat) : List Int :=
  [cell b (r+3) c, cell b (r+2) (c+1), cell b (r+1) (c+2), cell b r (c+3)]

/-- Four consecutive cells equal to `p`. -/
def win_window (w : List Int) (p : Int) : Bool := w.all (fun x => x == p)

/-- `Connect4Game.is_winning_pattern`. -/
def is_winning_pattern (g : Game) (b : Board) (p : Int) : Bool :=
  if p == PIECE_EMPTY then false
  else
    ((List.range (g.column_count - 3)).any fun c =>
      (List.range g.row_count).any fun r => win_window (hWindow b r c) p)
    || ((List.range g.column_count).any fun c =>
      (List.range (g.row_count - 3)).any fun r => win_window (vWindow b r c) p)
    || ((List.range (g.column_count - 3)).any fun c =>
      (List.range (g.row_count - 3)).any fun r => win_window (pdWindow b r c) p)
    || ((List.range (g.column_count - 3)).any fun c =>
      (List.range (g.row_count - 3)).any fun r => win_window (ndWindow b r c) p)

/-- The per-window test of `Connect4AI.is_near_win`:
`sum(cells[i] == piece for i in range(WINNING_LENGTH - 1)) == 3`, i.e. the
first three cells of the window equal `piece`, and `PIECE_EMPTY` occurs
somewhere among the four cells. -/
def near_window (w : List Int) (p : Int) : Bool :=
  ((w.take 3).countP (fun x => x == p) == 3) && w.contains PIECE_EMPTY

/-- One piece's rounds of the `Connect4AI.is_near_win` scan. -/
def near_win_for (g : Game) (b : Board) (p : Int) : Bool :=
  ((List.range (g.column_count - 3)).any fun c =>
    (List.range g.row_count).any fun r => near_window (hWindow b r c) p)
  || ((List.range g.column_count).any fun c =>
    (List.range (g.row_count - 3)).any fun r => near_window (vWindow b r c) p)
  || ((List.range (g.column_count - 3)).any fun c =>
    (List.range (g.row_count - 3)).any fun r => near_window (pdWindow b r c) p)
  || ((List.range (g.column_count - 3)).any fun c =>
    (List.range (g.row_count - 3)).any fun r => near_window (ndWindow b r c) p)

/-- `Connect4AI.is_near_win`: the scan is run for `PIECE_HUMAN` and then
for `PIECE_AI`. -/
def is_near_win (g : Game) (b : Board) : Bool :=
  [PIECE_HUMAN, PIECE_AI].any fun p => near_win_for g b p

/-- `np.count_nonzero(board == PIECE_EMPTY)`. -/
def count_empty (b : Board) : Nat :=
  (b.map (fun row => row.countP (fun x => x == PIECE_EMPTY))).sum

/-- `Connect4AI.calculate_dynamic_depth`.  The source compares the float
ratio `empty_cells / total_cells` against 0.5 and 0.25; for the cell
counts of any board (at most a few hundred cells) float64 division is
accurate enough that those comparisons agree exactly with the integer
comparisons `2 * empty < total` and `4 * empty < total` used here. -/
def calculate_dynamic_depth (g : Game) (b : Board) : Nat :=
  let empty_cells := count_empty b
  let total_cells := g.row_count * g.column_count
  let base_depth := 7
  if 2 * empty_cells < total_cells then base_depth + 1
  else if 4 * empty_cells < total_cells then base_depth + 2
  else if is_near_win g b then base_depth + 3
  else base_depth

/-- The immediate-win test inside `Connect4AI.find_playable_columns`:
drop `PLAYER_AI` into `col` of a scratch copy and test
`is_winning_pattern(temp_board, PLAYER_AI)`. -/
def drop_wins_for_ai (g : Game) (b : Board) (col : Nat) : Bool :=
  match find_open_row g b col with
  | some r => is_winning_pattern g (place_disc b r col PLAYER_AI) PLAYER_AI
  | none => false

/-- `Connect4AI.find_playable_columns`: collect the open columns in
ascending order, and among them the ones where dropping `PLAYER_AI` wins;
return the winning list if it is non-empty, otherwise all open columns. -/
def find_playable_columns (g : Game) (b : Board) : List Nat :=
  let playable := (List.range g.column_count).filter (fun c => is_column_open g b c)
  let winning := playable.filter (fun c => drop_wins_for_ai g b c)
  if winning.isEmpty then playable else winning

/-- `Connect4AI.is_game_over`. -/
def is_game_over (g : Game) (b : Board) : Bool :=
  is_winning_pattern g b PLAYER_AI
  || is_winning_pattern g b PLAYER_HUMAN
  || (find_playable_columns g b).isEmpty

/-- `Connect4AI.assess_line`. -/
def assess_line (line : List Int) (p : Int) : Int :=
  let opponent := if p == PIECE_HUMAN then PIECE_AI else PIECE_HUMAN
  let s1 : Int :=
    if line.count p == 4 then 1000
    else if line.count p == 3 && line.count PIECE_EMPTY == 1 then 50
    else if line.count p == 2 && line.count PIECE_EMPTY == 2 then 10
    else 0
  let s2 : Int :=
    if line.count opponent == 3 && line.count PIECE_EMPTY == 1 then -25 else 0
  s1 + s2

/-- The cell order of the immediate-win loop inside
`Connect4AI.evaluate_board_state`: `c` outer, `r` inner. -/
def cells_scan (g : Game) : List (Nat × Nat) :=
  (List.range g.column_count).flatMap (fun c => (List.range g.row_count).map (fun r => (c, r)))

/-- One iteration of the immediate-win loop of
`Connect4AI.evaluate_board_state`: if the cell is empty, place `p` there,
add 1000000 when that wins, and put the cell back to empty.  The board is
threaded to model the in-place mutation. -/
def imm_step (g : Game) (p : Int) (acc : Int × Board) (rc : Nat × Nat) : Int × Board :=
  if cell acc.2 rc.2 rc.1 == PIECE_EMPTY then
    ((if is_winning_pattern g (place_disc acc.2 rc.2 rc.1 p) p then acc.1 + 1000000 else acc.1),
      place_disc (place_disc acc.2 rc.2 rc.1 p) rc.2 rc.1 PIECE_EMPTY)
  else acc

/-- Center-column count of `evaluate_board_state`:
`board[:, column_count // 2].count(piece)`. -/
def center_count (g : Game) (b : Board) (p : Int) : Nat :=
  ((List.range g.row_count).map (fun r => cell b r (g.column_count / 2))).count p

def h_score (g : Game) (b : Board) (p : Int) : Int :=
  ((List.range g.row_count).map (fun r =>
    ((List.range (g.column_count - 3)).map (fun c => assess_line (hWindow b r c) p)).sum)).sum

def v_score (g : Game) (b : Board) (p : Int) : Int :=
  ((List.range g.column_count).map (fun c =>
    ((List.range (g.row_count - 3)).map (fun r => assess_line (vWindow b r c) p)).sum)).sum

def pd_score (g : Game) (b : Board) (p : Int) : Int :=
  ((List.range (g.row_count - 3)).map (fun r =>
    ((List.range (g.column_count - 3)).map (fun c => assess_line (pdWindow b r c) p)).sum)).sum

def nd_score (g : Game) (b : Board) (p : Int) : Int :=
  ((List.range (g.row_count - 3)).map (fun r =>
    ((List.range (g.column_count - 3)).map (fun c => assess_line (ndWindow b r c) p)).sum)).sum

/-- `Connect4AI.evaluate_board_state`.  Returns the score together with
the board left behind by the immediate-win loop (which mutates the board
in place and undoes each probe). -/
def evaluate_board_state (g : Game) (b : Board) (p : Int) : Int × Board :=
  let score0 : Int := (center_count g b p : Int) * 3
  let ib := (cells_scan g).foldl (imm_step g p) (0, b)
  let b1 := ib.2
  (score0 + ib.1 + h_score g b1 p + v_score g b1 p + pd_score g b1 p + nd_score g b1 p, b1)

/-! ### Scores with infinities

`minimax` is seeded with `float('-inf')` and `float('inf')`; every other
score it manipulates is an integer.  `XInt` adjoins the two infinities to
`Int` with the comparison behaviour of Python floats on these values. -/

inductive XInt where
  | negInf : XInt
  | fin : Int → XInt
  | posInf : XInt
deriving DecidableEq, Repr

def XInt.ble : XInt → XInt → Bool
  | .negInf, _ => true
  | _, .posInf => true
  | .posInf, _ => false
  | _, .negInf => false
  | .fin a, .fin b => decide (a ≤ b)

/-- Python `a < b`. -/
def XInt.blt (a b : XInt) : Bool := !(XInt.ble b a)

/-- Python `max(a, b)` (keeps the first argument on ties). -/
def XInt.max (a b : XInt) : XInt := if XInt.ble b a then a else b

/-- Python `min(a, b)` (keeps the first argument on ties). -/
def XInt.min (a b : XInt) : XInt := if XInt.ble a b then a else b

/-! ### Transposition table

The source keys the table by `(str(board), depth, maximizingPlayer)`;
`str` of a small numpy array is a faithful rendering of the full grid, so
the key is modelled by the board value itself.  A Python dict assignment
is modelled by consing, with lookup returning the most recent binding. -/

abbrev TTKey := Board × Nat × Bool

abbrev TTable := List (TTKey × (Nat × XInt))

def ttFind : TTable → TTKey → Option (Nat × XInt)
  | [], _ => none
  | (k', v) :: rest, k => if k' = k then some v else ttFind rest k

def ttStore (t : TTable) (k : TTKey) (v : Nat × XInt) : TTable := (k, v) :: t

/-! ### Minimax (`Connect4AI.minimax`) -/

/-- `POSITIVE - (row_count * column_count - depth)`. -/
def win_score (g : Game) (depth : Nat) : Int :=
  POSITIVE - ((g.row_count * g.column_count : Int) - (depth : Int))

/-- `NEGATIVE + (row_count * column_count - depth)`. -/
def loss_score (g : Game) (depth : Nat) : Int :=
  NEGATIVE + ((g.row_count * g.column_count : Int) - (depth : Int))

/-- The terminal classification of `minimax` (the `is_terminal` branch). -/
def terminal_score (g : Game) (b : Board) (depth : Nat) : XInt :=
  if is_winning_pattern g b PLAYER_AI then XInt.fin (win_score g depth)
  else if is_winning_pattern g b PLAYER_HUMAN then XInt.fin (loss_score g depth)
  else XInt.fin 0

/-- Result of one `minimax` call: the returned `(column, score)` pair, the
board as the call leaves it, and the transposition table after the call. -/
structure MMResult where
  column : Option Nat
  score : XInt
  board : Board
  tt : TTable

/-- Loop state of the two child loops of `minimax`: current best column
and value, the bound the loop tightens (`alpha` in the maximizing loop,
`beta` in the minimizing one), the table, and whether `break` has fired. -/
structure LoopSt where
  column : Nat
  value : XInt
  bound : XInt
  tt : TTable
  broken : Bool

/-- The board a child call searches: `row = find_open_row(board, col)`,
`b_copy = board.copy()`, `place_disc(b_copy, row, col, piece)`.  When the
column is not open (never the case for members of
`find_playable_columns`, where the Python source would raise) no disc is
placed. -/
def childBoard (g : Game) (b : Board) (col : Nat) (p : Int) : Board :=
  match find_open_row g b col with
  | some row => place_disc b row col p
  | none => b

/-- One iteration of the maximizing loop of `minimax`. -/
def max_step (g : Game) (rec : Board → XInt → XInt → Bool → TTable → MMResult)
    (b : Board) (beta : XInt) (st : LoopSt) (col : Nat) : LoopSt :=
  if st.broken then st else
    let r := rec (childBoard g b col PLAYER_AI) st.bound beta false st.tt
    let value := if XInt.blt st.value r.score then r.score else st.value
    let column := if XInt.blt st.value r.score then col else st.column
    let alpha := XInt.max st.bound value
    ⟨column, value, alpha, r.tt, XInt.ble beta alpha⟩

/-- One iteration of the minimizing loop of `minimax`. -/
def min_step (g : Game) (rec : Board → XInt → XInt → Bool → TTable → MMResult)
    (b : Board) (alpha : XInt) (st : LoopSt) (col : Nat) : LoopSt :=
  if st.broken then st else
    let r := rec (childBoard g b col PLAYER_HUMAN) alpha st.bound true st.tt
    let value := if XInt.blt r.score st.value then r.score else st.value
    let column := if XInt.blt r.score st.value then col else st.column
    let beta := XInt.min st.bound value
    ⟨column, value, beta, r.tt, XInt.ble beta alpha⟩

/-- `Connect4AI.minimax` with alpha-beta pruning and the transposition
table.  `pick` stands for `random.choice`, used only to seed the current
best column before any child is examined. -/
def minimax (g : Game) (pick : List Nat → Nat) :
    Nat → Board → XInt → XInt → Bool → TTable → MMResult
  | 0 => fun b _alpha _beta maximizing tt =>
      match ttFind tt (b, 0, maximizing) with
      | some cv => ⟨some cv.1, cv.2, b, tt⟩
      | none =>
          if is_game_over g b then ⟨none, terminal_score g b 0, b, tt⟩
          else
            let e := evaluate_board_state g b PLAYER_AI
            ⟨none, XInt.fin e.1, e.2, tt⟩
  | d + 1 => fun b alpha beta maximizing tt =>
      match ttFind tt (b, d + 1, maximizing) with
      | some cv => ⟨some cv.1, cv.2, b, tt⟩
      | none =>
          if is_game_over g b then ⟨none, terminal_score g b (d + 1), b, tt⟩
          else
            let playable := find_playable_columns g b
            if maximizing then
              let st := playable.foldl (max_step g (minimax g pick d) b beta)
                ⟨pick playable, XInt.negInf, alpha, tt, false⟩
              ⟨some st.column, st.value, b,
                ttStore st.tt (b, d + 1, maximizing) (st.column, st.value)⟩
            else
              let st := playable.foldl (min_step g (minimax g pick d) b alpha)
                ⟨pick playable, XInt.posInf, beta, tt, false⟩
              ⟨some st.column, st.value, b,
                ttStore st.tt (b, d + 1, maximizing) (st.column, st.value)⟩

/-! ### The unpruned reference search -/

def full_max_step (g : Game) (rec : Board → Bool → Option Nat × XInt)
    (b : Board) (st : Nat × XInt) (col : Nat) : Nat × XInt :=
  let s := (rec (childBoard g b col PLAYER_AI) false).2
  if XInt.blt st.2 s then (col, s) else st

def full_min_step (g : Game) (rec : Board → Bool → Option Nat × XInt)
    (b : Board) (st : Nat × XInt) (col : Nat) : Nat × XInt :=
  let s := (rec (childBoard g b col PLAYER_HUMAN) true).2
  if XInt.blt s st.2 then (col, s) else st

/-- Modelled from the spec: the "unpruned full minimax over the same game
tree" that the alpha-beta equivalence property compares against — the same
node classification, child generation, child order and tie-breaking as
`minimax`, with the pruning bounds, the `break`, and the transposition
table removed. -/
def minimaxFull (g : Game) (pick : List Nat → Nat) :
    Nat → Board → Bool → Option Nat × XInt
  | 0 => fun b _ =>
      if is_game_over g b then (none, terminal_score g b 0)
      else (none, XInt.fin (evaluate_board_state g b PLAYER_AI).1)
  | d + 1 => fun b maximizing =>
      if is_game_over g b then (none, terminal_score g b (d + 1))
      else
        let playable := find_playable_columns g b
        if maximizing then
          let st := playable.foldl (full_max_step g (minimaxFull g pick d) b)
            (pick playable, XInt.negInf)
          (some st.1, st.2)
        else
          let st := playable.foldl (full_min_step g (minimaxFull g pick d) b)
            (pick playable, XInt.posInf)
          (some st.1, st.2)

/-! ### The game session

The main loop of the source alternates turns; a move is only played when
nobody has won yet and the chosen column is open, the row is resolved by
`find_open_row`, and the human places `PIECE_HUMAN` while the AI places
`PIECE_AI`.  `playGame` folds a list of column choices through that loop;
a board is reachable when some such play from the empty board produces it
(the opening turn is drawn at random, hence existentially quantified). -/

def playGame (g : Game) : Bool → List Nat → Board → Option Board
  | _, [], b => some b
  | humanTurn, c :: rest, b =>
    if is_winning_pattern g b PIECE_HUMAN || is_winning_pattern g b PIECE_AI then none
    else if decide (c < g.column_count) && is_column_open g b c then
      match find_open_row g b c with
      | some r => playGame g (!humanTurn) rest
          (place_disc b r c (if humanTurn then PIECE_HUMAN else PIECE_AI))
      | none => none
    else none

def Reachable (g : Game) (b : Board) : Prop :=
  ∃ (start : Bool) (moves : List Nat), playGame g start moves (create_board g) = some b

/-! ### Definitions modelled from the spec's words

These are the spec-side references that the claims compare the code
against; each is written from the spec sentence it cites, not from the
source. -/

/-- Modelled from the spec: the dynamic depth policy with cumulative
increments — base depth 7, plus 1 once more than half the board is
filled, a further 1 once more than 75% is filled, and an additional 1,
independent of the fill checks, when either side has an open three. -/
def spec_dynamic_depth (g : Game) (b : Board) : Nat :=
  let empty := count_empty b
  let total := g.row_count * g.column_count
  7 + (if 2 * empty < total then 1 else 0)
    + (if 4 * empty < total then 1 else 0)
    + (if is_near_win g b then 1 else 0)

/-- Modelled from the spec: a four-cell window with exactly three cells
equal to the piece and at least one empty cell, the position of the piece
cells within the window not mattering. -/
def spec_near_window (w : List Int) (p : Int) : Bool :=
  (w.count p == 3) && w.contains PIECE_EMPTY

/-- Modelled from the spec: `hasOpenThree(board, piece)` — some four-cell
window along some direction satisfies `spec_near_window`. -/
def spec_open_three (g : Game) (b : Board) (p : Int) : Bool :=
  ((List.range (g.column_count - 3)).any fun c =>
    (List.range g.row_count).any fun r => spec_near_window (hWindow b r c) p)
  || ((List.range g.column_count).any fun c =>
    (List.range (g.row_count - 3)).any fun r => spec_near_window (vWindow b r c) p)
  || ((List.range (g.column_count - 3)).any fun c =>
    (List.range (g.row_count - 3)).any fun r => spec_near_window (pdWindow b r c) p)
  || ((List.range (g.column_count - 3)).any fun c =>
    (List.range (g.row_count - 3)).any fun r => spec_near_window (ndWindow b r c) p)

/-- Modelled from the spec: `score(board, piece)` = centre-column bonus
plus the window sums over every direction, and nothing else. -/
def spec_center_window_score (g : Game) (b : Board) (p : Int) : Int :=
  (center_count g b p : Int) * 3
    + h_score g b p + v_score g b p + pd_score g b p + nd_score g b p

/-- The number of empty cells of the board where placing `p` produces a
four-in-a-row; the closed form of the immediate-win loop of
`evaluate_board_state`. -/
def immediate_win_cells (g : Game) (b : Board) (p : Int) : Nat :=
  (cells_scan g).countP fun rc =>
    cell b rc.2 rc.1 == PIECE_EMPTY && is_winning_pattern g (place_disc b rc.2 rc.1 p) p

/-! ### Concrete inputs used by the counterexamples and witnesses -/

def gA : Game := ⟨4, 4⟩

/-- Seed choice standing in for `random.choice` in concrete runs. -/
def pickHead : List Nat → Nat := fun l => l.headD 0

/-- The AI's real piece (`PIECE_AI = 2`) has four-in-a-row on the bottom
row; the human's real piece has only three in a row. -/
def bWinAI : Board :=
  [[2, 2, 2, 2],
   [1, 1, 1, 0],
   [0, 0, 0, 0],
   [0, 0, 0, 0]]

/-- 13 of 16 cells filled (more than 75%), with an open three for piece 1
on the positive diagonal through (0,0), (1,1), (2,2), (3,3). -/
def bDepth : Board :=
  [[1, 2, 1, 1],
   [2, 1, 2, 1],
   [1, 2, 1, 2],
   [2, 0, 0, 0]]

/-- Three piece-1 cells on the bottom row with the completing cell (0,3)
empty: one immediate-win cell for piece 1. -/
def bEval : Board :=
  [[1, 1, 1, 0],
   [0, 0, 0, 0],
   [0, 0, 0, 0],
   [0, 0, 0, 0]]

/-- A window `[1, 0, 1, 1]` on the bottom row: exactly three piece-1
cells and one empty, but the three are not the first three cells of any
window. -/
def bNear : Board :=
  [[1, 0, 1, 1],
   [0, 0, 0, 0],
   [0, 0, 0, 0],
   [0, 0, 0, 0]]

/-- Piece 1 stacked on rows 0-2 of column 0: dropping `PLAYER_AI` (= 1)
into column 0 wins immediately, so `find_playable_columns` collapses to
`[0]` although all four columns are open. -/
def bStack : Board :=
  [[1, 0, 0, 0],
   [1, 0, 0, 0],
   [1, 0, 0, 0],
   [0, 0, 0, 0]]

def gB : Game := ⟨6, 14⟩

/-- 54 alternating column choices on the 6 x 14 board (human first):
the human builds three-high stacks of piece 1 on columns 0,1,2, 5,6,7,
10,11,12 while the AI stacks piece 2 on column 13 and then on top of the
human's completed stacks. -/
def movesReach : List Nat :=
  [0, 13, 0, 13, 0, 13, 1, 0, 1, 0, 1, 0, 2, 1, 2, 1, 2, 1,
   5, 2, 5, 2, 5, 2, 6, 5, 6, 5, 6, 5, 7, 6, 7, 6, 7, 6,
   10, 7, 10, 7, 10, 7, 11, 10, 11, 10, 11, 10, 12, 11, 12, 11, 12, 11]

/-- The board `movesReach` produces: piece 1 has 18 immediate-win cells,
so the heuristic evaluation reaches 18000849, far above `POSITIVE`. -/
def bReach : Board :=
  [[1, 1, 1, 0, 0, 1, 1, 1, 0, 0, 1, 1, 1, 2],
   [1, 1, 1, 0, 0, 1, 1, 1, 0, 0, 1, 1, 1, 2],
   [1, 1, 1, 0, 0, 1, 1, 1, 0, 0, 1, 1, 1, 2],
   [2, 2, 2, 0, 0, 2, 2, 2, 0, 0, 2, 2, 0, 0],
   [2, 2, 2, 0, 0, 2, 2, 2, 0, 0, 2, 2, 0, 0],
   [2, 2, 2, 0, 0, 2, 2, 2, 0, 0, 2, 2, 0, 0]]

/-! ## Helper lemmas -/

theorem list_set_oob {α : Type} (l : List α) (i : Nat) (v : α) (h : l.length ≤ i) :
    l.set i v = l := by
  induction l generalizing i with
  | nil => rfl
  | cons a t ih =>
    cases i with
    | zero => simp at h
    | succ n =>
      simp only [List.set]
      rw [ih n (by simpa using h)]

theorem list_set_getD {α : Type} (l : List α) (i : Nat) (d : α) :
    l.set i (l.getD i d) = l := by
  induction l generalizing i with
  | nil => rfl
  | cons a t ih =>
    cases i with
    | zero => simp
    | succ n =>
      simp only [List.getD_cons_succ, List.set]
      rw [ih n]

theorem list_getD_set {α : Type} (l : List α) (i : Nat) (v d : α) (h : i < l.length) :
    (l.set i v).getD i d = v := by
  induction l generalizing i with
  | nil => simp at h
  | cons a t ih =>
    cases i with
    | zero => simp
    | succ n =>
      simp only [List.set, List.getD_cons_succ]
      exact ih n (by simpa using h)

theorem place_oob (b : Board) (r c : Nat) (p : Int) (h : b.length ≤ r) :
    place_disc b r c p = b :=
  list_set_oob b r _ h

/-- Undoing a probe restores the board: placing `p` on an empty cell and
then putting `PIECE_EMPTY` back is the identity. -/
theorem place_place_cancel (b : Board) (r c : Nat) (p : Int)
    (h : cell b r c = PIECE_EMPTY) :
    place_disc (place_disc b r c p) r c PIECE_EMPTY = b := by
  by_cases hr : r < b.length
  · unfold place_disc
    rw [list_getD_set b r _ [] hr, List.set_set, List.set_set]
    unfold cell at h
    rw [show ((b.getD r []).set c PIECE_EMPTY) = ((b.getD r []).set c ((b.getD r []).getD c 0)) from by rw [h]]
    rw [list_set_getD, list_set_getD]
  · rw [place_oob _ _ _ _ (le_of_not_lt hr), place_oob _ _ _ _ (le_of_not_lt hr)]

/-- Writing `PIECE_EMPTY` over an empty cell leaves the board unchanged
(`place_disc` with piece value 0, as the minimizing branch of `minimax`
does when it places `PLAYER_HUMAN = 0`). -/
theorem place_empty_self (b : Board) (r c : Nat)
    (h : cell b r c = PIECE_EMPTY) :
    place_disc b r c PIECE_EMPTY = b := by
  unfold place_disc
  unfold cell at h
  rw [show ((b.getD r []).set c PIECE_EMPTY) = ((b.getD r []).set c ((b.getD r []).getD c 0)) from by rw [h]]
  rw [list_set_getD, list_set_getD]

theorem find_open_row_empty (g : Game) (b : Board) (col r : Nat)
    (h : find_open_row g b col = some r) : cell b r col = PIECE_EMPTY := by
  unfold find_open_row at h
  have := List.find?_some h
  simpa using this

theorem imm_step_snd (g : Game) (p : Int) (acc : Int × Board) (rc : Nat × Nat) :
    (imm_step g p acc rc).2 = acc.2 := by
  unfold imm_step
  split
  · next h => exact place_place_cancel _ _ _ _ (by simpa using h)
  · rfl

theorem imm_fold_snd (g : Game) (p : Int) :
    ∀ (L : List (Nat × Nat)) (acc : Int × Board), (L.foldl (imm_step g p) acc).2 = acc.2 := by
  intro L
  induction L with
  | nil => intro acc; rfl
  | cons hd tl ih => intro acc; rw [List.foldl_cons, ih, imm_step_snd]

/-- The evaluator hands the board back exactly as it received it: every
probe of the immediate-win loop is undone. -/
theorem evaluate_board_state_snd (g : Game) (b : Board) (p : Int) :
    (evaluate_board_state g b p).2 = b := by
  unfold evaluate_board_state
  exact imm_fold_snd g p (cells_scan g) (0, b)

theorem imm_step_fst (g : Game) (p : Int) (s : Int) (b : Board) (rc : Nat × Nat) :
    (imm_step g p (s, b) rc).1 =
      s + (if (cell b rc.2 rc.1 == PIECE_EMPTY
              && is_winning_pattern g (place_disc b rc.2 rc.1 p) p) then 1000000 else 0) := by
  unfold imm_step
  by_cases h1 : (cell b rc.2 rc.1 == PIECE_EMPTY) = true
  · by_cases h2 : is_winning_pattern g (place_disc b rc.2 rc.1 p) p = true
    · simp [h1, h2]
    · simp [h1, h2]
  · simp [h1]

theorem imm_fold_fst (g : Game) (p : Int) (b : Board) :
    ∀ (L : List (Nat × Nat)) (s : Int),
      (L.foldl (imm_step g p) (s, b)).1 =
        s + 1000000 * ((L.countP fun rc =>
          cell b rc.2 rc.1 == PIECE_EMPTY
            && is_winning_pattern g (place_disc b rc.2 rc.1 p) p : Nat) : Int) := by
  intro L
  induction L with
  | nil => intro s; simp
  | cons hd tl ih =>
    intro s
    rw [List.foldl_cons]
    have hsnd : (imm_step g p (s, b) hd).2 = b := imm_step_snd g p (s, b) hd
    have heta : imm_step g p (s, b) hd = ((imm_step g p (s, b) hd).1, b) :=
      Prod.ext rfl hsnd
    rw [heta, ih, imm_step_fst, List.countP_cons]
    by_cases h : (cell b hd.2 hd.1 == PIECE_EMPTY
        && is_winning_pattern g (place_disc b hd.2 hd.1 p) p) = true
    · simp [h]; ring
    · simp [h]

/-! ## C1 -/

set_option maxRecDepth 1000000 in
/-- C1: the failing input evaluated on the code.  On `bWinAI` the AI's
piece (`PIECE_AI = 2`) has four-in-a-row on the bottom row, so the claim
classifies every minimax node on this board as `TerminalWin` with score
`POSITIVE - (16 - depth)` and column `none`; but `minimax` tests
`is_winning_pattern` with `PLAYER_AI = 1` and `PLAYER_HUMAN = 0` instead
of the piece values, so `is_game_over` is `false`, the node expands, and
a column is returned.  Moreover the `TerminalLoss` branch is dead code:
`is_winning_pattern` with `PLAYER_HUMAN = 0 = PIECE_EMPTY` is `false` on
every board. -/
theorem C1_player_piece_confusion :
    is_winning_pattern gA bWinAI PIECE_AI = true
    ∧ is_game_over gA bWinAI = false
    ∧ (minimax gA pickHead 2 bWinAI XInt.negInf XInt.posInf true []).column = some 3
    ∧ (∀ b : Board, is_winning_pattern gA b PLAYER_HUMAN = false) := by
  refine ⟨by decide, by decide, ?_, fun b => rfl⟩
  decide

/-! ## C3 -/

/-- C3 counterexample: on `bDepth` (more than 75% filled, open three for
piece 1) the code returns depth 8 while the claim's cumulative policy
yields 10. -/
theorem C3_depth_counterexample :
    calculate_dynamic_depth gA bDepth = 8 ∧ spec_dynamic_depth gA bDepth = 10 := by
  constructor
  · decide
  · decide

/-- C3 amended: `calculate_dynamic_depth` returns base+1 as soon as more
than half the board is filled, regardless of the 75% mark or open threes
(the base+2 branch is unreachable); the open-three bonus of base+3
applies only while at most half the board is filled; otherwise the base
depth 7 is returned. -/
theorem C3_depth_policy (g : Game) (b : Board) :
    calculate_dynamic_depth g b =
      if 2 * count_empty b < g.row_count * g.column_count then 8
      else if is_near_win g b then 10 else 7 := by
  unfold calculate_dynamic_depth
  by_cases h1 : 2 * count_empty b < g.row_count * g.column_count
  · simp [h1]
  · have h2 : ¬ (4 * count_empty b < g.row_count * g.column_count) := by omega
    simp [h1, h2]

/-! ## C4 -/

set_option maxRecDepth 400000 in
/-- C4 counterexample: on `bEval` with piece 1 the evaluator returns
1000053 while the spec's centre-bonus-plus-windows sum is 53; the
difference is the immediate-win term the claim omits. -/
theorem C4_eval_counterexample :
    (evaluate_board_state gA bEval PIECE_HUMAN).1 = 1000053
    ∧ spec_center_window_score gA bEval PIECE_HUMAN = 53 := by
  constructor
  · decide
  · decide

/-- C4 amended: the evaluator's score is the centre-column bonus plus the
window sums plus 1000000 for every empty cell where placing the piece
completes four-in-a-row. -/
theorem C4_eval_decomposition (g : Game) (b : Board) (p : Int) :
    (evaluate_board_state g b p).1 =
      spec_center_window_score g b p + 1000000 * (immediate_win_cells g b p : Int) := by
  simp only [evaluate_board_state, spec_center_window_score, immediate_win_cells]
  rw [imm_fold_snd g p (cells_scan g) (0, b), imm_fold_fst g p b (cells_scan g) 0]
  ring

/-! ## C5 -/

set_option maxRecDepth 4000000 in
/-- C5 counterexample: `bReach` is reached by the 54 legal alternating
moves `movesReach` from the empty 6 x 14 board, yet its heuristic
evaluation (18000849) exceeds `POSITIVE`, hence exceeds the win sentinel
`POSITIVE` minus any nonnegative ply penalty: the win sentinel does not
dominate the heuristic on reachable boards. -/
theorem C5_sentinel_counterexample :
    Reachable gB bReach ∧ (evaluate_board_state gB bReach PLAYER_AI).1 > POSITIVE := by
  constructor
  · exact ⟨true, movesReach, by decide⟩
  · decide

/-- C5 amended: the depth adjustment of the terminal sentinels does give
"win as soon as possible, lose as late as possible": with more remaining
depth (a faster win) the win score is strictly higher, and with less
remaining depth (a later loss) the loss score is strictly higher; but
domination over the heuristic fails (see the counterexample). -/
theorem C5_depth_adjustment (g : Game) (d1 d2 : Nat) (h : d2 < d1) :
    win_score g d2 < win_score g d1 ∧ loss_score g d1 < loss_score g d2 := by
  unfold win_score loss_score POSITIVE NEGATIVE
  omega

/-- Witness for `C5_depth_adjustment` at remaining depths 5 and 3. -/
theorem C5_depth_adjustment_witness :
    win_score gA 3 < win_score gA 5 ∧ loss_score gA 5 < loss_score gA 3 :=
  C5_depth_adjustment gA 5 3 (by decide)

/-! ## C9 -/

/-- C9 counterexample: the claim requires every out-of-range column
index, including negative ones, to fail; but column -1 on the empty
4 x 4 board answers about column 3 (numpy wraparound) instead of
failing. -/
theorem C9_negative_index_counterexample :
    is_column_open_checked gA (create_board gA) (-1) = Except.ok true := rfl

/-- C9 amended: `is_column_open` fails (with an index error) exactly for
`col ≥ column_count` or `col < -column_count`; a negative index in
`[-column_count, -1]` does not fail but reports on column
`column_count + col`. -/
theorem C9_column_check_behavior (g : Game) (b : Board) (col : Int) :
    ((col < -(g.column_count : Int) ∨ (g.column_count : Int) ≤ col) →
      is_column_open_checked g b col = Except.error ())
    ∧ ((-(g.column_count : Int) ≤ col ∧ col < 0) →
      is_column_open_checked g b col = Except.ok (is_column_open g b (col + (g.column_count : Int)).toNat)) := by
  constructor
  · intro h
    unfold is_column_open_checked
    rw [if_neg (by omega), if_neg (by omega)]
  · intro h
    unfold is_column_open_checked
    rw [if_neg (by omega), if_pos h]

/-- Witness for `C9_column_check_behavior`: column 7 fails on the 4 x 4
board, and column -2 answers about column 2. -/
theorem C9_column_check_behavior_witness :
    is_column_open_checked gA (create_board gA) 7 = Except.error ()
    ∧ is_column_open_checked gA (create_board gA) (-2)
        = Except.ok (is_column_open gA (create_board gA) ((-2 : Int) + ((gA.column_count : Nat) : Int)).toNat) :=
  ⟨(C9_column_check_behavior gA (create_board gA) 7).1 (Or.inr (by decide)),
   (C9_column_check_behavior gA (create_board gA) (-2)).2 ⟨by decide, by decide⟩⟩

/-! ## C8 -/

/-- `minimax` hands the caller's board back unchanged: the only in-place
mutation it performs on it is the evaluator's probe loop, which undoes
itself; all other placements happen on copies. -/
theorem minimax_board (g : Game) (pick : List Nat → Nat) (d : Nat) (b : Board)
    (alpha beta : XInt) (side : Bool) (t : TTable) :
    (minimax g pick d b alpha beta side t).board = b := by
  cases d with
  | zero =>
    simp only [minimax]
    rcases h : ttFind t (b, 0, side) with _ | cv
    · simp only [h]
      split
      · rfl
      · exact evaluate_board_state_snd g b PLAYER_AI
    · simp only [h]
  | succ d =>
    simp only [minimax]
    rcases h : ttFind t (b, d + 1, side) with _ | cv
    · simp only [h]
      split
      · rfl
      · split <;> rfl
    · simp only [h]

/-- C8: the search and the evaluator never leak hypothetical moves into
the caller's board, and evaluation is idempotent. -/
theorem C8_search_preserves_board (g : Game) (pick : List Nat → Nat) (d : Nat)
    (b : Board) (alpha beta : XInt) (side : Bool) (t : TTable) (p : Int) :
    (minimax g pick d b alpha beta side t).board = b
    ∧ (evaluate_board_state g b p).2 = b
    ∧ evaluate_board_state g (evaluate_board_state g b p).2 p = evaluate_board_state g b p := by
  refine ⟨minimax_board g pick d b alpha beta side t, evaluate_board_state_snd g b p, ?_⟩
  rw [evaluate_board_state_snd g b p]

/-! ## C6 -/

/-! ## C6 -/

/-- The window test of `is_near_win`, written out: the first three cells
(in scan order) must equal the non-empty piece, and then the only way an
empty cell can occur in the window is as its fourth cell. -/
theorem near_window_iff (x0 x1 x2 x3 p : Int) (hp : p ≠ 0) :
    near_window [x0, x1, x2, x3] p = true ↔ (x0 = p ∧ x1 = p ∧ x2 = p ∧ x3 = PIECE_EMPTY) := by
  unfold near_window PIECE_EMPTY
  simp only [List.take_succ_cons, List.take_zero, List.countP_cons, List.countP_nil,
    Bool.and_eq_true, beq_iff_eq, List.contains, List.elem_eq_mem, decide_eq_true_eq,
    List.mem_cons, List.not_mem_nil, or_false]
  constructor
  · rintro ⟨hc, hm⟩
    have h0 : x0 = p := by split_ifs at hc <;> omega
    have h1 : x1 = p := by split_ifs at hc <;> omega
    have h2 : x2 = p := by split_ifs at hc <;> omega
    refine ⟨h0, h1, h2, ?_⟩
    rcases hm with h | h | h | h
    all_goals omega
  · rintro ⟨h0, h1, h2, h3⟩
    constructor
    · split_ifs <;> omega
    · exact Or.inr (Or.inr (Or.inr h3.symm))

theorem near_win_for_iff (g : Game) (b : Board) (p : Int) (hp : p ≠ 0) :
    near_win_for g b p = true ↔
      ((∃ c, c < g.column_count - 3 ∧ ∃ r, r < g.row_count ∧
          (cell b r c = p ∧ cell b r (c+1) = p ∧ cell b r (c+2) = p ∧ cell b r (c+3) = PIECE_EMPTY))
       ∨ (∃ c, c < g.column_count ∧ ∃ r, r < g.row_count - 3 ∧
          (cell b r c = p ∧ cell b (r+1) c = p ∧ cell b (r+2) c = p ∧ cell b (r+3) c = PIECE_EMPTY))
       ∨ (∃ c, c < g.column_count - 3 ∧ ∃ r, r < g.row_count - 3 ∧
          (cell b r c = p ∧ cell b (r+1) (c+1) = p ∧ cell b (r+2) (c+2) = p ∧ cell b (r+3) (c+3) = PIECE_EMPTY))
       ∨ (∃ c, c < g.column_count - 3 ∧ ∃ r, r < g.row_count - 3 ∧
          (cell b (r+3) c = p ∧ cell b (r+2) (c+1) = p ∧ cell b (r+1) (c+2) = p ∧ cell b r (c+3) = PIECE_EMPTY))) := by
  unfold near_win_for hWindow vWindow pdWindow ndWindow
  simp only [Bool.or_eq_true, List.any_eq_true, List.mem_range,
    near_window_iff _ _ _ _ _ hp]
  rw [or_assoc, or_assoc]

/-- C6 counterexample: the bottom-row window `[1, 0, 1, 1]` of `bNear`
has exactly three piece-1 cells and one empty cell, so the spec's
`hasOpenThree` is true; but `is_near_win` only sums the first three cells
of each window and returns false. -/
theorem C6_open_three_counterexample :
    spec_open_three gA bNear PIECE_HUMAN = true ∧ is_near_win gA bNear = false := by
  constructor
  · decide
  · decide

/-- C6 amended: `is_near_win` is true iff for one of the pieces 1 or 2
some four-cell window, in some direction, has its first three cells (in
that direction's scan order) equal to the piece and its fourth cell
empty — the position of the piece cells does matter. -/
theorem C6_near_win_characterization (g : Game) (b : Board) :
    is_near_win g b = true ↔
      ∃ p, (p = PIECE_HUMAN ∨ p = PIECE_AI) ∧
        ((∃ c, c < g.column_count - 3 ∧ ∃ r, r < g.row_count ∧
            (cell b r c = p ∧ cell b r (c+1) = p ∧ cell b r (c+2) = p ∧ cell b r (c+3) = PIECE_EMPTY))
         ∨ (∃ c, c < g.column_count ∧ ∃ r, r < g.row_count - 3 ∧
            (cell b r c = p ∧ cell b (r+1) c = p ∧ cell b (r+2) c = p ∧ cell b (r+3) c = PIECE_EMPTY))
         ∨ (∃ c, c < g.column_count - 3 ∧ ∃ r, r < g.row_count - 3 ∧
            (cell b r c = p ∧ cell b (r+1) (c+1) = p ∧ cell b (r+2) (c+2) = p ∧ cell b (r+3) (c+3) = PIECE_EMPTY))
         ∨ (∃ c, c < g.column_count - 3 ∧ ∃ r, r < g.row_count - 3 ∧
            (cell b (r+3) c = p ∧ cell b (r+2) (c+1) = p ∧ cell b (r+1) (c+2) = p ∧ cell b r (c+3) = PIECE_EMPTY))) := by
  unfold is_near_win
  simp only [List.any_eq_true, List.mem_cons, List.not_mem_nil, or_false]
  constructor
  · rintro ⟨p, hmem, h⟩
    have hp : p ≠ 0 := by rcases hmem with h' | h' <;> (rw [h']; decide)
    exact ⟨p, hmem, (near_win_for_iff g b p hp).1 h⟩
  · rintro ⟨p, hmem, h⟩
    have hp : p ≠ 0 := by rcases hmem with h' | h' <;> (rw [h']; decide)
    exact ⟨p, hmem, (near_win_for_iff g b p hp).2 h⟩

/-! ## C7 -/

/-- Every column the search expands is in range and open. -/
theorem mem_find_playable (g : Game) (b : Board) (c : Nat)
    (h : c ∈ find_playable_columns g b) :
    c < g.column_count ∧ is_column_open g b c = true := by
  simp only [find_playable_columns] at h
  split at h
  · have hm := List.mem_filter.mp h
    exact ⟨List.mem_range.mp hm.1, hm.2⟩
  · have hm := List.mem_filter.mp h
    have hm2 := List.mem_filter.mp hm.1
    exact ⟨List.mem_range.mp hm2.1, hm2.2⟩

/-- C7 counterexample: on `bStack` every column is open, but dropping
`PLAYER_AI` into column 0 wins immediately, so the expansion list inside
the search collapses to `[0]` instead of one child per open column. -/
theorem C7_expansion_counterexample :
    find_playable_columns gA bStack = [0]
    ∧ (List.range gA.column_count).filter (fun c => is_column_open gA bStack c) = [0, 1, 2, 3] := by
  constructor
  · decide
  · decide

/-- C7 amended: the columns a node expands are in strictly increasing
order, and a column is expanded iff it is in range and open and — when
some open column gives `PLAYER_AI` an immediate four-in-a-row — it is
itself such a winning column.  The immediate-win filter operates inside
every search node, not only at the move-selector level. -/
theorem C7_child_generation (g : Game) (b : Board) :
    List.Pairwise (· < ·) (find_playable_columns g b)
    ∧ (∀ c, c ∈ find_playable_columns g b ↔
        (c < g.column_count ∧ is_column_open g b c = true ∧
          ((∃ w, w < g.column_count ∧ is_column_open g b w = true ∧ drop_wins_for_ai g b w = true) →
            drop_wins_for_ai g b c = true))) := by
  constructor
  · simp only [find_playable_columns]
    split
    · exact List.Pairwise.sublist ((List.range g.column_count).filter_sublist)
        (List.pairwise_lt_range _)
    · exact List.Pairwise.sublist ((((List.range g.column_count).filter _).filter_sublist).trans
        ((List.range g.column_count).filter_sublist)) (List.pairwise_lt_range _)
  · intro c
    simp only [find_playable_columns]
    split
    · next hempty =>
      constructor
      · intro hc
        have hm := List.mem_filter.mp hc
        refine ⟨List.mem_range.mp hm.1, hm.2, ?_⟩
        rintro ⟨w, hw1, hw2, hw3⟩
        exfalso
        have hwmem : w ∈ ((List.range g.column_count).filter
            (fun c => is_column_open g b c)).filter (fun c => drop_wins_for_ai g b c) :=
          List.mem_filter.mpr ⟨List.mem_filter.mpr ⟨List.mem_range.mpr hw1, hw2⟩, hw3⟩
        rw [List.isEmpty_iff.mp hempty] at hwmem
        simp at hwmem
      · rintro ⟨h1, h2, _⟩
        exact List.mem_filter.mpr ⟨List.mem_range.mpr h1, h2⟩
    · next hempty =>
      constructor
      · intro hc
        have hm := List.mem_filter.mp hc
        have hm2 := List.mem_filter.mp hm.1
        exact ⟨List.mem_range.mp hm2.1, hm2.2, fun _ => hm.2⟩
      · rintro ⟨h1, h2, himp⟩
        have hne : ((List.range g.column_count).filter
            (fun c => is_column_open g b c)).filter (fun c => drop_wins_for_ai g b c) ≠ [] := by
          intro hnil
          rw [hnil] at hempty
          simp at hempty
        obtain ⟨w, hw⟩ := List.exists_mem_of_ne_nil _ hne
        have hwm := List.mem_filter.mp hw
        have hwm2 := List.mem_filter.mp hwm.1
        have hwins := himp ⟨w, List.mem_range.mp hwm2.1, hwm2.2, hwm.2⟩
        exact List.mem_filter.mpr ⟨List.mem_filter.mpr ⟨List.mem_range.mpr h1, h2⟩, hwins⟩

/-! ## C10 -/

theorem XInt.blt_negInf_fin (z : Int) : XInt.blt XInt.negInf (XInt.fin z) = true := rfl

theorem XInt.blt_fin_posInf (z : Int) : XInt.blt (XInt.fin z) XInt.posInf = true := rfl

theorem terminal_score_fin (g : Game) (b : Board) (d : Nat) :
    ∃ z, terminal_score g b d = XInt.fin z := by
  unfold terminal_score
  split_ifs <;> exact ⟨_, rfl⟩

theorem playable_ne_nil (g : Game) (b : Board) (h : is_game_over g b = false) :
    find_playable_columns g b ≠ [] := by
  intro hnil
  unfold is_game_over at h
  rw [hnil] at h
  simp at h

/-- Invariant of the transposition table: every stored score is finite
and every stored column is one of the board's expandable columns. -/
def TFin (g : Game) (t : TTable) : Prop :=
  ∀ b d side cv, ttFind t (b, d, side) = some cv →
    (∃ z, cv.2 = XInt.fin z) ∧ cv.1 ∈ find_playable_columns g b

theorem tfin_nil (g : Game) : TFin g [] := fun _ _ _ _ h => nomatch h

theorem tfin_store (g : Game) (t : TTable) (bb : Board) (dd : Nat) (ss : Bool)
    (v : Nat × XInt) (ht : TFin g t) (hz : ∃ z, v.2 = XInt.fin z)
    (hc : v.1 ∈ find_playable_columns g bb) :
    TFin g (ttStore t (bb, dd, ss) v) := by
  intro b d side cv hfind
  unfold ttStore ttFind at hfind
  split at hfind
  · next heq =>
    obtain ⟨h1, -, -⟩ := Prod.mk.injEq .. ▸ (by
      injection heq with e1 e2
      injection e2 with e3 e4
      exact ⟨e1, e3, e4⟩ : bb = b ∧ dd = d ∧ ss = side)
    injection hfind with hv
    subst h1 hv
    exact ⟨hz, hc⟩
  · exact ht b d side cv hfind

/-- The property of a recursive search call needed by the loop
invariants: it preserves the table invariant and returns a finite
score. -/
def RecOK (g : Game) (rec : Board → XInt → XInt → Bool → TTable → MMResult) : Prop :=
  ∀ b alpha beta side t, TFin g t →
    TFin g (rec b alpha beta side t).tt ∧ ∃ z, (rec b alpha beta side t).score = XInt.fin z

theorem max_step_good (g : Game) (rec : Board → XInt → XInt → Bool → TTable → MMResult)
    (hrec : RecOK g rec) (b : Board) (beta : XInt) (S : List Nat) (st : LoopSt) (col : Nat)
    (hcol : col ∈ S) (ht : TFin g st.tt)
    (hst : ((∃ z, st.value = XInt.fin z) ∧ st.column ∈ S)
            ∨ (st.value = XInt.negInf ∧ st.broken = false)) :
    TFin g (max_step g rec b beta st col).tt
    ∧ (∃ z, (max_step g rec b beta st col).value = XInt.fin z)
    ∧ (max_step g rec b beta st col).column ∈ S := by
  unfold max_step
  by_cases hbr : st.broken = true
  · rcases hst with ⟨hz, hcS⟩ | ⟨-, hb⟩
    · simp only [hbr, if_true]
      exact ⟨ht, hz, hcS⟩
    · rw [hbr] at hb; exact absurd hb (by simp)
  · rw [Bool.not_eq_true] at hbr
    simp only [hbr, Bool.false_eq_true, if_false]
    obtain ⟨htt, z, hz⟩ := hrec (childBoard g b col PLAYER_AI) st.bound beta false st.tt ht
    rw [hz]
    refine ⟨htt, ?_⟩
    rcases hst with ⟨⟨w, hw⟩, hcS⟩ | ⟨hneg, -⟩
    · rw [hw]
      by_cases hlt : XInt.blt (XInt.fin w) (XInt.fin z) = true
      · simp only [hlt, if_true]
        exact ⟨⟨z, rfl⟩, hcol⟩
      · rw [Bool.not_eq_true] at hlt
        simp only [hlt, Bool.false_eq_true, if_false]
        exact ⟨⟨w, rfl⟩, hcS⟩
    · rw [hneg, XInt.blt_negInf_fin]
      simp only [if_true]
      exact ⟨⟨z, rfl⟩, hcol⟩

theorem min_step_good (g : Game) (rec : Board → XInt → XInt → Bool → TTable → MMResult)
    (hrec : RecOK g rec) (b : Board) (alpha : XInt) (S : List Nat) (st : LoopSt) (col : Nat)
    (hcol : col ∈ S) (ht : TFin g st.tt)
    (hst : ((∃ z, st.value = XInt.fin z) ∧ st.column ∈ S)
            ∨ (st.value = XInt.posInf ∧ st.broken = false)) :
    TFin g (min_step g rec b alpha st col).tt
    ∧ (∃ z, (min_step g rec b alpha st col).value = XInt.fin z)
    ∧ (min_step g rec b alpha st col).column ∈ S := by
  unfold min_step
  by_cases hbr : st.broken = true
  · rcases hst with ⟨hz, hcS⟩ | ⟨-, hb⟩
    · simp only [hbr, if_true]
      exact ⟨ht, hz, hcS⟩
    · rw [hbr] at hb; exact absurd hb (by simp)
  · rw [Bool.not_eq_true] at hbr
    simp only [hbr, Bool.false_eq_true, if_false]
    obtain ⟨htt, z, hz⟩ := hrec (childBoard g b col PLAYER_HUMAN) alpha st.bound true st.tt ht
    rw [hz]
    refine ⟨htt, ?_⟩
    rcases hst with ⟨⟨w, hw⟩, hcS⟩ | ⟨hpos, -⟩
    · rw [hw]
      by_cases hlt : XInt.blt (XInt.fin z) (XInt.fin w) = true
      · simp only [hlt, if_true]
        exact ⟨⟨z, rfl⟩, hcol⟩
      · rw [Bool.not_eq_true] at hlt
        simp only [hlt, Bool.false_eq_true, if_false]
        exact ⟨⟨w, rfl⟩, hcS⟩
    · rw [hpos, XInt.blt_fin_posInf]
      simp only [if_true]
      exact ⟨⟨z, rfl⟩, hcol⟩

theorem max_fold_good (g : Game) (rec : Board → XInt → XInt → Bool → TTable → MMResult)
    (hrec : RecOK g rec) (b : Board) (beta : XInt) (S : List Nat) :
    ∀ (L : List Nat) (st : LoopSt), (∀ x ∈ L, x ∈ S) → TFin g st.tt →
      (((∃ z, st.value = XInt.fin z) ∧ st.column ∈ S)
        ∨ (st.value = XInt.negInf ∧ st.broken = false)) →
      (L ≠ [] ∨ ((∃ z, st.value = XInt.fin z) ∧ st.column ∈ S)) →
      TFin g (L.foldl (max_step g rec b beta) st).tt
      ∧ (∃ z, (L.foldl (max_step g rec b beta) st).value = XInt.fin z)
      ∧ (L.foldl (max_step g rec b beta) st).column ∈ S := by
  intro L
  induction L with
  | nil =>
    rintro st _ ht hst (hne | hg)
    · exact absurd rfl hne
    · exact ⟨ht, hg.1, hg.2⟩
  | cons c L ih =>
    intro st hmem ht hst _
    rw [List.foldl_cons]
    obtain ⟨ht', hz', hc'⟩ :=
      max_step_good g rec hrec b beta S st c (hmem c (by simp)) ht hst
    exact ih (max_step g rec b beta st c)
      (fun x hx => hmem x (by simp [hx])) ht' (Or.inl ⟨hz', hc'⟩) (Or.inr ⟨hz', hc'⟩)

theorem min_fold_good (g : Game) (rec : Board → XInt → XInt → Bool → TTable → MMResult)
    (hrec : RecOK g rec) (b : Board) (alpha : XInt) (S : List Nat) :
    ∀ (L : List Nat) (st : LoopSt), (∀ x ∈ L, x ∈ S) → TFin g st.tt →
      (((∃ z, st.value = XInt.fin z) ∧ st.column ∈ S)
        ∨ (st.value = XInt.posInf ∧ st.broken = false)) →
      (L ≠ [] ∨ ((∃ z, st.value = XInt.fin z) ∧ st.column ∈ S)) →
      TFin g (L.foldl (min_step g rec b alpha) st).tt
      ∧ (∃ z, (L.foldl (min_step g rec b alpha) st).value = XInt.fin z)
      ∧ (L.foldl (min_step g rec b alpha) st).column ∈ S := by
  intro L
  induction L with
  | nil =>
    rintro st _ ht hst (hne | hg)
    · exact absurd rfl hne
    · exact ⟨ht, hg.1, hg.2⟩
  | cons c L ih =>
    intro st hmem ht hst _
    rw [List.foldl_cons]
    obtain ⟨ht', hz', hc'⟩ :=
      min_step_good g rec hrec b alpha S st c (hmem c (by simp)) ht hst
    exact ih (min_step g rec b alpha st c)
      (fun x hx => hmem x (by simp [hx])) ht' (Or.inl ⟨hz', hc'⟩) (Or.inr ⟨hz', hc'⟩)

/-- The joint invariant of `minimax`: with a well-formed table it
preserves the table invariant, returns a finite score, and at every
non-terminal node of positive depth returns a column drawn from the
expansion list of that node's board. -/
theorem minimax_inv (g : Game) (pick : List Nat → Nat) :
    ∀ (d : Nat) (b : Board) (alpha beta : XInt) (side : Bool) (t : TTable), TFin g t →
      TFin g (minimax g pick d b alpha beta side t).tt
      ∧ (∃ z, (minimax g pick d b alpha beta side t).score = XInt.fin z)
      ∧ (is_game_over g b = false → 0 < d →
          ∃ c, (minimax g pick d b alpha beta side t).column = some c
            ∧ c ∈ find_playable_columns g b) := by
  intro d
  induction d with
  | zero =>
    intro b alpha beta side t ht
    simp only [minimax]
    rcases h : ttFind t (b, 0, side) with _ | cv
    · simp only [h]
      split
      · exact ⟨ht, terminal_score_fin g b 0, fun _ h0 => absurd h0 (by simp)⟩
      · exact ⟨ht, ⟨_, rfl⟩, fun _ h0 => absurd h0 (by simp)⟩
    · simp only [h]
      obtain ⟨hz, hc⟩ := ht b 0 side cv h
      exact ⟨ht, hz, fun _ _ => ⟨cv.1, rfl, hc⟩⟩
  | succ d ih =>
    intro b alpha beta side t ht
    have hrec : RecOK g (minimax g pick d) := by
      intro b' a' b'' s' t' ht'
      obtain ⟨h1, h2, -⟩ := ih b' a' b'' s' t' ht'
      exact ⟨h1, h2⟩
    simp only [minimax]
    rcases h : ttFind t (b, d + 1, side) with _ | cv
    · simp only [h]
      by_cases hgo : is_game_over g b = true
      · simp only [hgo, if_true]
        exact ⟨ht, terminal_score_fin g b (d + 1), fun hfalse _ => by simp at hfalse⟩
      · rw [Bool.not_eq_true] at hgo
        simp only [hgo, Bool.false_eq_true, if_false]
        have hne : find_playable_columns g b ≠ [] := playable_ne_nil g b hgo
        cases side with
        | true =>
          simp only [if_true]
          obtain ⟨ht', hz', hc'⟩ := max_fold_good g (minimax g pick d) hrec b beta
            (find_playable_columns g b) (find_playable_columns g b)
            ⟨pick (find_playable_columns g b), XInt.negInf, alpha, t, false⟩
            (fun x hx => hx) ht (Or.inr ⟨rfl, rfl⟩) (Or.inl hne)
          exact ⟨tfin_store g _ b (d + 1) true _ ht' hz' hc', hz', fun _ _ => ⟨_, rfl, hc'⟩⟩
        | false =>
          simp only [Bool.false_eq_true, if_false]
          obtain ⟨ht', hz', hc'⟩ := min_fold_good g (minimax g pick d) hrec b alpha
            (find_playable_columns g b) (find_playable_columns g b)
            ⟨pick (find_playable_columns g b), XInt.posInf, beta, t, false⟩
            (fun x hx => hx) ht (Or.inr ⟨rfl, rfl⟩) (Or.inl hne)
          exact ⟨tfin_store g _ b (d + 1) false _ ht' hz' hc', hz', fun _ _ => ⟨_, rfl, hc'⟩⟩
    · simp only [h]
      obtain ⟨hz, hc⟩ := ht b (d + 1) side cv h
      exact ⟨ht, hz, fun _ _ => ⟨cv.1, rfl, hc⟩⟩

/-- C10: at a non-terminal node searched to depth at least 1 with a
well-formed table, `minimax` returns some column of the expansion list
of that board — an in-range column whose top cell is empty. -/
theorem C10_column_membership (g : Game) (pick : List Nat → Nat) (d : Nat) (b : Board)
    (alpha beta : XInt) (side : Bool) (t : TTable) (ht : TFin g t)
    (hterm : is_game_over g b = false) :
    ∃ c, (minimax g pick (d + 1) b alpha beta side t).column = some c
      ∧ c ∈ find_playable_columns g b
      ∧ c < g.column_count ∧ is_column_open g b c = true := by
  obtain ⟨-, -, h3⟩ := minimax_inv g pick (d + 1) b alpha beta side t ht
  obtain ⟨c, hc1, hc2⟩ := h3 hterm (by omega)
  obtain ⟨hlt, hopen⟩ := mem_find_playable g b c hc2
  exact ⟨c, hc1, hc2, hlt, hopen⟩

/-- Witness for `C10_column_membership`: the empty 4 x 4 board at depth 1
with the empty table. -/
theorem C10_column_membership_witness :
    ∃ c, (minimax gA pickHead 1 (create_board gA) XInt.negInf XInt.posInf true []).column = some c
      ∧ c ∈ find_playable_columns gA (create_board gA)
      ∧ c < gA.column_count ∧ is_column_open gA (create_board gA) c = true :=
  C10_column_membership gA pickHead 0 (create_board gA) XInt.negInf XInt.posInf true []
    (tfin_nil gA) (by decide)

/-! ## C2

The equivalence of the pruned and the unpruned search.  The key facts
making it provable for this code: the minimizing loop "places"
`PLAYER_HUMAN = 0`, which never changes the board, so all children of a
minimizing node are the node's own board; hence every fresh recursive
call descends with `beta` exactly as received (the maximizing loop never
modifies `beta`, and the minimizing loop re-searches its identical
children only through the transposition table or through
window-insensitive leaf calls).  With the root window
`(-inf, +inf)`, no maximizing node can ever cut (`beta` stays `+inf` on
every fresh path), so every stored table entry is the exact unpruned
value. -/

theorem XInt.blt_irrefl (a : XInt) : XInt.blt a a = false := by
  cases a with
  | negInf => rfl
  | posInf => rfl
  | fin z => simp [XInt.blt, XInt.ble]

theorem XInt.ble_posInf_left {x : XInt} (h : x ≠ XInt.posInf) :
    XInt.ble XInt.posInf x = false := by
  cases x with
  | negInf => rfl
  | posInf => exact absurd rfl h
  | fin z => rfl

theorem XInt.max_ne_posInf {a b : XInt} (ha : a ≠ XInt.posInf) (hb : b ≠ XInt.posInf) :
    XInt.max a b ≠ XInt.posInf := by
  unfold XInt.max
  split
  · exact ha
  · exact hb

/-- In the minimizing branch the "move" places piece 0 on an empty cell:
the child board is the node's own board. -/
theorem min_child_eq (g : Game) (b : Board) (col : Nat) :
    childBoard g b col PLAYER_HUMAN = b := by
  unfold childBoard
  rcases h : find_open_row g b col with _ | r
  · rfl
  · exact place_empty_self b r col (find_open_row_empty g b col r h)

theorem ttFind_store_self (t : TTable) (k : TTKey) (v : Nat × XInt) :
    ttFind (ttStore t k v) k = some v := by
  unfold ttStore ttFind
  rw [if_pos rfl]

/-- A transposition-table hit returns the stored pair at once. -/
theorem minimax_hit (g : Game) (pick : List Nat → Nat) (d : Nat) (b : Board)
    (alpha beta : XInt) (side : Bool) (t : TTable) (cv : Nat × XInt)
    (h : ttFind t (b, d, side) = some cv) :
    minimax g pick d b alpha beta side t = ⟨some cv.1, cv.2, b, t⟩ := by
  cases d <;> simp only [minimax, h]

/-- A terminal node is classified without looking at the window or the
table contents beyond the lookup. -/
theorem minimax_term (g : Game) (pick : List Nat → Nat) (d : Nat) (b : Board)
    (alpha beta : XInt) (side : Bool) (t : TTable)
    (h : ttFind t (b, d, side) = none) (hgo : is_game_over g b = true) :
    minimax g pick d b alpha beta side t = ⟨none, terminal_score g b d, b, t⟩ := by
  cases d <;> (simp only [minimax, h]; rw [if_pos hgo])

/-- A depth-exhausted non-terminal miss evaluates the heuristic; the
window plays no part. -/
theorem minimax_zero_leaf (g : Game) (pick : List Nat → Nat) (b : Board)
    (alpha beta : XInt) (side : Bool) (t : TTable)
    (h : ttFind t (b, 0, side) = none) (hgo : is_game_over g b = false) :
    minimax g pick 0 b alpha beta side t =
      ⟨none, XInt.fin (evaluate_board_state g b PLAYER_AI).1,
        (evaluate_board_state g b PLAYER_AI).2, t⟩ := by
  simp only [minimax, h]
  rw [if_neg (by simp [hgo])]

theorem minimax_succ_max (g : Game) (pick : List Nat → Nat) (d : Nat) (b : Board)
    (alpha beta : XInt) (t : TTable)
    (h : ttFind t (b, d + 1, true) = none) (hgo : is_game_over g b = false) :
    minimax g pick (d + 1) b alpha beta true t =
      ⟨some ((find_playable_columns g b).foldl (max_step g (minimax g pick d) b beta)
          ⟨pick (find_playable_columns g b), XInt.negInf, alpha, t, false⟩).column,
        ((find_playable_columns g b).foldl (max_step g (minimax g pick d) b beta)
          ⟨pick (find_playable_columns g b), XInt.negInf, alpha, t, false⟩).value,
        b,
        ttStore ((find_playable_columns g b).foldl (max_step g (minimax g pick d) b beta)
          ⟨pick (find_playable_columns g b), XInt.negInf, alpha, t, false⟩).tt
          (b, d + 1, true)
          (((find_playable_columns g b).foldl (max_step g (minimax g pick d) b beta)
            ⟨pick (find_playable_columns g b), XInt.negInf, alpha, t, false⟩).column,
           ((find_playable_columns g b).foldl (max_step g (minimax g pick d) b beta)
            ⟨pick (find_playable_columns g b), XInt.negInf, alpha, t, false⟩).value)⟩ := by
  simp only [minimax, h]
  rw [if_neg (by simp [hgo]), if_pos trivial]

theorem minimax_succ_min (g : Game) (pick : List Nat → Nat) (d : Nat) (b : Board)
    (alpha beta : XInt) (t : TTable)
    (h : ttFind t (b, d + 1, false) = none) (hgo : is_game_over g b = false) :
    minimax g pick (d + 1) b alpha beta false t =
      ⟨some ((find_playable_columns g b).foldl (min_step g (minimax g pick d) b alpha)
          ⟨pick (find_playable_columns g b), XInt.posInf, beta, t, false⟩).column,
        ((find_playable_columns g b).foldl (min_step g (minimax g pick d) b alpha)
          ⟨pick (find_playable_columns g b), XInt.posInf, beta, t, false⟩).value,
        b,
        ttStore ((find_playable_columns g b).foldl (min_step g (minimax g pick d) b alpha)
          ⟨pick (find_playable_columns g b), XInt.posInf, beta, t, false⟩).tt
          (b, d + 1, false)
          (((find_playable_columns g b).foldl (min_step g (minimax g pick d) b alpha)
            ⟨pick (find_playable_columns g b), XInt.posInf, beta, t, false⟩).column,
           ((find_playable_columns g b).foldl (min_step g (minimax g pick d) b alpha)
            ⟨pick (find_playable_columns g b), XInt.posInf, beta, t, false⟩).value)⟩ := by
  simp only [minimax, h]
  rw [if_neg (by simp [hgo]), if_neg (by simp)]

theorem minimaxFull_term (g : Game) (pick : List Nat → Nat) (d : Nat) (b : Board)
    (side : Bool) (hgo : is_game_over g b = true) :
    minimaxFull g pick d b side = (none, terminal_score g b d) := by
  cases d <;> (simp only [minimaxFull]; rw [if_pos hgo])

theorem minimaxFull_zero_leaf (g : Game) (pick : List Nat → Nat) (b : Board)
    (side : Bool) (hgo : is_game_over g b = false) :
    minimaxFull g pick 0 b side =
      (none, XInt.fin (evaluate_board_state g b PLAYER_AI).1) := by
  simp only [minimaxFull]
  rw [if_neg (by simp [hgo])]

theorem minimaxFull_succ_max (g : Game) (pick : List Nat → Nat) (d : Nat) (b : Board)
    (hgo : is_game_over g b = false) :
    minimaxFull g pick (d + 1) b true =
      (some ((find_playable_columns g b).foldl (full_max_step g (minimaxFull g pick d) b)
          (pick (find_playable_columns g b), XInt.negInf)).1,
        ((find_playable_columns g b).foldl (full_max_step g (minimaxFull g pick d) b)
          (pick (find_playable_columns g b), XInt.negInf)).2) := by
  simp only [minimaxFull]
  rw [if_neg (by simp [hgo]), if_pos trivial]

theorem minimaxFull_succ_min (g : Game) (pick : List Nat → Nat) (d : Nat) (b : Board)
    (hgo : is_game_over g b = false) :
    minimaxFull g pick (d + 1) b false =
      (some ((find_playable_columns g b).foldl (full_min_step g (minimaxFull g pick d) b)
          (pick (find_playable_columns g b), XInt.posInf)).1,
        ((find_playable_columns g b).foldl (full_min_step g (minimaxFull g pick d) b)
          (pick (find_playable_columns g b), XInt.posInf)).2) := by
  simp only [minimaxFull]
  rw [if_neg (by simp [hgo]), if_neg (by simp)]

theorem full_max_step_fin (g : Game) (rec : Board → Bool → Option Nat × XInt) (b : Board)
    (hrec : ∀ b', ∃ z, (rec b' false).2 = XInt.fin z) (st : Nat × XInt) (c : Nat)
    (hst : (∃ z, st.2 = XInt.fin z) ∨ st.2 = XInt.negInf) :
    ∃ w, (full_max_step g rec b st c).2 = XInt.fin w := by
  obtain ⟨z, hz⟩ := hrec (childBoard g b c PLAYER_AI)
  unfold full_max_step
  simp only [hz]
  rcases hst with ⟨u, hu⟩ | hneg
  · split
    · exact ⟨z, rfl⟩
    · exact ⟨u, hu⟩
  · simp only [hneg, XInt.blt_negInf_fin]
    rw [if_pos trivial]
    exact ⟨z, rfl⟩

theorem full_min_step_fin (g : Game) (rec : Board → Bool → Option Nat × XInt) (b : Board)
    (hrec : ∀ b', ∃ z, (rec b' true).2 = XInt.fin z) (st : Nat × XInt) (c : Nat)
    (hst : (∃ z, st.2 = XInt.fin z) ∨ st.2 = XInt.posInf) :
    ∃ w, (full_min_step g rec b st c).2 = XInt.fin w := by
  obtain ⟨z, hz⟩ := hrec (childBoard g b c PLAYER_HUMAN)
  unfold full_min_step
  simp only [hz]
  rcases hst with ⟨u, hu⟩ | hpos
  · split
    · exact ⟨z, rfl⟩
    · exact ⟨u, hu⟩
  · simp only [hpos, XInt.blt_fin_posInf]
    rw [if_pos trivial]
    exact ⟨z, rfl⟩

theorem full_max_fold_fin (g : Game) (rec : Board → Bool → Option Nat × XInt) (b : Board)
    (hrec : ∀ b', ∃ z, (rec b' false).2 = XInt.fin z) :
    ∀ (L : List Nat) (st : Nat × XInt), (∃ z, st.2 = XInt.fin z) →
      ∃ z, (L.foldl (full_max_step g rec b) st).2 = XInt.fin z := by
  intro L
  induction L with
  | nil => exact fun st h => h
  | cons c L ih =>
    intro st hst
    rw [List.foldl_cons]
    exact ih _ (full_max_step_fin g rec b hrec st c (Or.inl hst))

theorem full_min_fold_fin (g : Game) (rec : Board → Bool → Option Nat × XInt) (b : Board)
    (hrec : ∀ b', ∃ z, (rec b' true).2 = XInt.fin z) :
    ∀ (L : List Nat) (st : Nat × XInt), (∃ z, st.2 = XInt.fin z) →
      ∃ z, (L.foldl (full_min_step g rec b) st).2 = XInt.fin z := by
  intro L
  induction L with
  | nil => exact fun st h => h
  | cons c L ih =>
    intro st hst
    rw [List.foldl_cons]
    exact ih _ (full_min_step_fin g rec b hrec st c (Or.inl hst))

/-- The unpruned search always produces a finite score. -/
theorem full_score_fin (g : Game) (pick : List Nat → Nat) :
    ∀ (d : Nat) (b : Board) (side : Bool),
      ∃ z, (minimaxFull g pick d b side).2 = XInt.fin z := by
  intro d
  induction d with
  | zero =>
    intro b side
    by_cases hgo : is_game_over g b = true
    · rw [minimaxFull_term g pick 0 b side hgo]
      exact terminal_score_fin g b 0
    · rw [Bool.not_eq_true] at hgo
      rw [minimaxFull_zero_leaf g pick b side hgo]
      exact ⟨_, rfl⟩
  | succ d ih =>
    intro b side
    by_cases hgo : is_game_over g b = true
    · rw [minimaxFull_term g pick (d + 1) b side hgo]
      exact terminal_score_fin g b (d + 1)
    · rw [Bool.not_eq_true] at hgo
      obtain ⟨c0, rest, hP⟩ := List.exists_cons_of_ne_nil (playable_ne_nil g b hgo)
      cases side with
      | true =>
        rw [minimaxFull_succ_max g pick d b hgo, hP, List.foldl_cons]
        exact full_max_fold_fin g (minimaxFull g pick d) b (fun b' => ih b' false) rest _
          (full_max_step_fin g (minimaxFull g pick d) b (fun b' => ih b' false) _ c0
            (Or.inr rfl))
      | false =>
        rw [minimaxFull_succ_min g pick d b hgo, hP, List.foldl_cons]
        exact full_min_fold_fin g (minimaxFull g pick d) b (fun b' => ih b' true) rest _
          (full_min_step_fin g (minimaxFull g pick d) b (fun b' => ih b' true) _ c0
            (Or.inr rfl))

theorem XInt.fin_ne_posInf (z : Int) : XInt.fin z ≠ XInt.posInf := fun h => nomatch h

theorem XInt.negInf_ne_posInf : XInt.negInf ≠ XInt.posInf := fun h => nomatch h

/-- Exactness invariant of the transposition table: every stored pair is
the unpruned search's result for its key. -/
def TGood (g : Game) (pick : List Nat → Nat) (t : TTable) : Prop :=
  ∀ b d side cv, ttFind t (b, d, side) = some cv →
    minimaxFull g pick d b side = (some cv.1, cv.2)

theorem tgood_nil (g : Game) (pick : List Nat → Nat) : TGood g pick [] :=
  fun _ _ _ _ h => nomatch h

theorem tgood_store (g : Game) (pick : List Nat → Nat) (t : TTable) (bb : Board)
    (dd : Nat) (ss : Bool) (v : Nat × XInt) (ht : TGood g pick t)
    (hv : minimaxFull g pick dd bb ss = (some v.1, v.2)) :
    TGood g pick (ttStore t (bb, dd, ss) v) := by
  intro b d side cv hfind
  unfold ttStore ttFind at hfind
  split at hfind
  · next heq =>
    injection heq with e1 e2
    injection e2 with e3 e4
    injection hfind with hv'
    subst e1
    subst e3
    subst e4
    subst hv'
    exact hv
  · exact ht b d side cv hfind

theorem max_step_eq (g : Game) (rec : Board → XInt → XInt → Bool → TTable → MMResult)
    (b : Board) (beta : XInt) (st : LoopSt) (col : Nat) (h : st.broken = false) :
    max_step g rec b beta st col =
      ⟨if XInt.blt st.value (rec (childBoard g b col PLAYER_AI) st.bound beta false st.tt).score
          then col else st.column,
       if XInt.blt st.value (rec (childBoard g b col PLAYER_AI) st.bound beta false st.tt).score
          then (rec (childBoard g b col PLAYER_AI) st.bound beta false st.tt).score else st.value,
       XInt.max st.bound
         (if XInt.blt st.value (rec (childBoard g b col PLAYER_AI) st.bound beta false st.tt).score
          then (rec (childBoard g b col PLAYER_AI) st.bound beta false st.tt).score else st.value),
       (rec (childBoard g b col PLAYER_AI) st.bound beta false st.tt).tt,
       XInt.ble beta (XInt.max st.bound
         (if XInt.blt st.value (rec (childBoard g b col PLAYER_AI) st.bound beta false st.tt).score
          then (rec (childBoard g b col PLAYER_AI) st.bound beta false st.tt).score
          else st.value))⟩ := by
  unfold max_step
  rw [h, if_neg (by simp)]

theorem min_step_eq (g : Game) (rec : Board → XInt → XInt → Bool → TTable → MMResult)
    (b : Board) (alpha : XInt) (st : LoopSt) (col : Nat) (h : st.broken = false) :
    min_step g rec b alpha st col =
      ⟨if XInt.blt (rec (childBoard g b col PLAYER_HUMAN) alpha st.bound true st.tt).score st.value
          then col else st.column,
       if XInt.blt (rec (childBoard g b col PLAYER_HUMAN) alpha st.bound true st.tt).score st.value
          then (rec (childBoard g b col PLAYER_HUMAN) alpha st.bound true st.tt).score else st.value,
       XInt.min st.bound
         (if XInt.blt (rec (childBoard g b col PLAYER_HUMAN) alpha st.bound true st.tt).score st.value
          then (rec (childBoard g b col PLAYER_HUMAN) alpha st.bound true st.tt).score else st.value),
       (rec (childBoard g b col PLAYER_HUMAN) alpha st.bound true st.tt).tt,
       XInt.ble (XInt.min st.bound
         (if XInt.blt (rec (childBoard g b col PLAYER_HUMAN) alpha st.bound true st.tt).score st.value
          then (rec (childBoard g b col PLAYER_HUMAN) alpha st.bound true st.tt).score
          else st.value)) alpha⟩ := by
  unfold min_step
  rw [h, if_neg (by simp)]

theorem min_step_broken (g : Game) (rec : Board → XInt → XInt → Bool → TTable → MMResult)
    (b : Board) (alpha : XInt) (st : LoopSt) (col : Nat) (h : st.broken = true) :
    min_step g rec b alpha st col = st := by
  unfold min_step
  rw [if_pos h]

theorem full_max_step_eq (g : Game) (rec : Board → Bool → Option Nat × XInt)
    (b : Board) (st : Nat × XInt) (col : Nat) :
    full_max_step g rec b st col =
      if XInt.blt st.2 ((rec (childBoard g b col PLAYER_AI) false).2)
        then (col, (rec (childBoard g b col PLAYER_AI) false).2) else st := rfl

theorem full_min_step_eq (g : Game) (rec : Board → Bool → Option Nat × XInt)
    (b : Board) (st : Nat × XInt) (col : Nat) :
    full_min_step g rec b st col =
      if XInt.blt ((rec (childBoard g b col PLAYER_HUMAN) true).2) st.2
        then (col, (rec (childBoard g b col PLAYER_HUMAN) true).2) else st := rfl

/-- The invariant carried through one level of the induction: at the
given depth, with an exact table and `beta = +inf`, the pruned search
agrees with the unpruned search, keeps the table exact, leaves the table
untouched unless it stores its own key, and does store its own key at
every expanded node. -/
def Exact (g : Game) (pick : List Nat → Nat) (d : Nat) : Prop :=
  ∀ (b : Board) (side : Bool) (alpha : XInt) (t : TTable),
    TGood g pick t → alpha ≠ XInt.posInf →
    (minimax g pick d b alpha XInt.posInf side t).column = (minimaxFull g pick d b side).1
    ∧ (minimax g pick d b alpha XInt.posInf side t).score = (minimaxFull g pick d b side).2
    ∧ TGood g pick (minimax g pick d b alpha XInt.posInf side t).tt
    ∧ (ttFind (minimax g pick d b alpha XInt.posInf side t).tt (b, d, side) = none →
        (minimax g pick d b alpha XInt.posInf side t).tt = t)
    ∧ (0 < d → is_game_over g b = false →
        ttFind (minimax g pick d b alpha XInt.posInf side t).tt (b, d, side) ≠ none)

/-- In the maximizing loop with `beta = +inf` no cutoff ever fires, each
child is searched with an exact table and the full window above, so the
running best column and value agree step by step with the unpruned
loop. -/
theorem max_loop_exact (g : Game) (pick : List Nat → Nat) (d : Nat)
    (hd : Exact g pick d) (b : Board) :
    ∀ (L : List Nat) (st : LoopSt) (fst : Nat × XInt),
      st.column = fst.1 → st.value = fst.2 → TGood g pick st.tt → st.broken = false →
      st.bound ≠ XInt.posInf → ((∃ z, st.value = XInt.fin z) ∨ st.value = XInt.negInf) →
      (L.foldl (max_step g (minimax g pick d) b XInt.posInf) st).column
        = (L.foldl (full_max_step g (minimaxFull g pick d) b) fst).1
      ∧ (L.foldl (max_step g (minimax g pick d) b XInt.posInf) st).value
        = (L.foldl (full_max_step g (minimaxFull g pick d) b) fst).2
      ∧ TGood g pick (L.foldl (max_step g (minimax g pick d) b XInt.posInf) st).tt := by
  intro L
  induction L with
  | nil => intro st fst h1 h2 h3 _ _ _; exact ⟨h1, h2, h3⟩
  | cons c L ih =>
    intro st fst h1 h2 h3 hbr hbound hval
    rw [List.foldl_cons, List.foldl_cons,
      max_step_eq g (minimax g pick d) b XInt.posInf st c hbr,
      full_max_step_eq g (minimaxFull g pick d) b fst c]
    obtain ⟨hc_r, hs_r, ht_r, -, -⟩ :=
      hd (childBoard g b c PLAYER_AI) false st.bound st.tt h3 hbound
    obtain ⟨z, hz⟩ := full_score_fin g pick d (childBoard g b c PLAYER_AI) false
    rw [hs_r, hz, ← h2]
    have hvne : st.value ≠ XInt.posInf := by
      rcases hval with ⟨u, hu⟩ | hneg
      · rw [hu]; exact XInt.fin_ne_posInf u
      · rw [hneg]; exact XInt.negInf_ne_posInf
    by_cases hblt : XInt.blt st.value (XInt.fin z) = true
    · simp only [hblt, if_true]
      exact ih _ _ rfl rfl ht_r
        (XInt.ble_posInf_left (XInt.max_ne_posInf hbound (XInt.fin_ne_posInf z)))
        (XInt.max_ne_posInf hbound (XInt.fin_ne_posInf z)) (Or.inl ⟨z, rfl⟩)
    · rw [Bool.not_eq_true] at hblt
      simp only [hblt, Bool.false_eq_true, if_false]
      exact ih _ _ h1 h2 ht_r
        (XInt.ble_posInf_left (XInt.max_ne_posInf hbound hvne))
        (XInt.max_ne_posInf hbound hvne) hval

/-- After the first child of a minimizing node has been searched, every
further child is the same board again: its value comes back unchanged
(via the table, or via a window-insensitive leaf call), so the loop's
column, value and table never move. -/
theorem min_rest_stable (g : Game) (pick : List Nat → Nat) (d : Nat) (b : Board)
    (alpha : XInt) (t1 : TTable) (c0 : Nat) (v : XInt)
    (hstep : ∀ bound : XInt, (minimax g pick d b alpha bound true t1).score = v
        ∧ (minimax g pick d b alpha bound true t1).tt = t1) :
    ∀ (L : List Nat) (st : LoopSt), st.column = c0 → st.value = v → st.tt = t1 →
      (L.foldl (min_step g (minimax g pick d) b alpha) st).column = c0
      ∧ (L.foldl (min_step g (minimax g pick d) b alpha) st).value = v
      ∧ (L.foldl (min_step g (minimax g pick d) b alpha) st).tt = t1 := by
  intro L
  induction L with
  | nil => intro st h1 h2 h3; exact ⟨h1, h2, h3⟩
  | cons c L ih =>
    intro st h1 h2 h3
    rw [List.foldl_cons]
    by_cases hbr : st.broken = true
    · rw [min_step_broken g (minimax g pick d) b alpha st c hbr]
      exact ih st h1 h2 h3
    · rw [Bool.not_eq_true] at hbr
      rw [min_step_eq g (minimax g pick d) b alpha st c hbr, min_child_eq]
      obtain ⟨hsc, htt⟩ := hstep st.bound
      rw [h3, hsc, htt, h2]
      simp only [XInt.blt_irrefl, Bool.false_eq_true, if_false]
      exact ih _ h1 rfl rfl

/-- The unpruned minimizing loop likewise never moves once its state
carries the node's own value. -/
theorem full_min_rest_stable (g : Game) (pick : List Nat → Nat) (d : Nat) (b : Board)
    (c0 : Nat) (v : XInt) (hv : (minimaxFull g pick d b true).2 = v) :
    ∀ L : List Nat,
      L.foldl (full_min_step g (minimaxFull g pick d) b) (c0, v) = (c0, v) := by
  intro L
  induction L with
  | nil => rfl
  | cons c L ih =>
    rw [List.foldl_cons, full_min_step_eq, min_child_eq, hv]
    simp only [XInt.blt_irrefl, Bool.false_eq_true, if_false]
    exact ih

/-- The pruned search with the root window agrees with the unpruned
search and keeps the transposition table exact. -/
theorem minimax_exact (g : Game) (pick : List Nat → Nat) : ∀ d, Exact g pick d := by
  intro d
  induction d with
  | zero =>
    intro b side alpha t ht ha
    rcases h : ttFind t (b, 0, side) with _ | cv
    · by_cases hgo : is_game_over g b = true
      · rw [minimax_term g pick 0 b alpha XInt.posInf side t h hgo,
          minimaxFull_term g pick 0 b side hgo]
        exact ⟨rfl, rfl, ht, fun _ => rfl, fun h0 _ => absurd h0 (by omega)⟩
      · rw [Bool.not_eq_true] at hgo
        rw [minimax_zero_leaf g pick b alpha XInt.posInf side t h hgo,
          minimaxFull_zero_leaf g pick b side hgo]
        exact ⟨rfl, rfl, ht, fun _ => rfl, fun h0 _ => absurd h0 (by omega)⟩
    · rw [minimax_hit g pick 0 b alpha XInt.posInf side t cv h]
      have hfull := ht b 0 side cv h
      exact ⟨by rw [hfull], by rw [hfull], ht, fun _ => rfl, fun h0 _ => absurd h0 (by omega)⟩
  | succ d ih =>
    intro b side alpha t ht ha
    rcases h : ttFind t (b, d + 1, side) with _ | cv
    · by_cases hgo : is_game_over g b = true
      · rw [minimax_term g pick (d + 1) b alpha XInt.posInf side t h hgo,
          minimaxFull_term g pick (d + 1) b side hgo]
        exact ⟨rfl, rfl, ht, fun _ => rfl, fun _ hbad => absurd hgo (by rw [hbad]; simp)⟩
      · rw [Bool.not_eq_true] at hgo
        cases side with
        | true =>
          rw [minimax_succ_max g pick d b alpha XInt.posInf t h hgo,
            minimaxFull_succ_max g pick d b hgo]
          obtain ⟨hcol, hval, htg⟩ := max_loop_exact g pick d ih b
            (find_playable_columns g b)
            ⟨pick (find_playable_columns g b), XInt.negInf, alpha, t, false⟩
            (pick (find_playable_columns g b), XInt.negInf)
            rfl rfl ht rfl ha (Or.inr rfl)
          refine ⟨by rw [hcol], hval, ?_, ?_, ?_⟩
          · refine tgood_store g pick _ b (d + 1) true _ htg ?_
            rw [minimaxFull_succ_max g pick d b hgo, hcol, hval]
          · intro hnone
            rw [ttFind_store_self] at hnone
            cases hnone
          · intro _ _
            rw [ttFind_store_self]
            simp
        | false =>
          obtain ⟨c0, rest, hP⟩ := List.exists_cons_of_ne_nil (playable_ne_nil g b hgo)
          obtain ⟨hc_r, hs_r, ht_r, hA_r, h4_r⟩ := ih b true alpha t ht ha
          obtain ⟨z, hz⟩ := full_score_fin g pick d b true
          have hs_r2 : (minimax g pick d b alpha XInt.posInf true t).score = XInt.fin z := by
            rw [hs_r, hz]
          have hstep : ∀ bound : XInt,
              (minimax g pick d b alpha bound true
                ((minimax g pick d b alpha XInt.posInf true t).tt)).score = XInt.fin z
              ∧ (minimax g pick d b alpha bound true
                ((minimax g pick d b alpha XInt.posInf true t).tt)).tt
                = (minimax g pick d b alpha XInt.posInf true t).tt := by
            intro bound
            rcases hfind : ttFind (minimax g pick d b alpha XInt.posInf true t).tt
                (b, d, true) with _ | cv2
            · have htt_eq : (minimax g pick d b alpha XInt.posInf true t).tt = t :=
                hA_r hfind
              have hd0 : d = 0 := by
                rcases Nat.eq_zero_or_pos d with h0 | hpos
                · exact h0
                · exact absurd hfind (h4_r hpos hgo)
              subst hd0
              rw [htt_eq] at hfind ⊢
              rw [minimax_zero_leaf g pick b alpha bound true t hfind hgo]
              rw [minimaxFull_zero_leaf g pick b true hgo] at hz
              exact ⟨hz, rfl⟩
            · have hfull2 := ht_r b d true cv2 hfind
              rw [minimax_hit g pick d b alpha bound true _ cv2 hfind]
              refine ⟨?_, rfl⟩
              have hcv2 : cv2.2 = (minimaxFull g pick d b true).2 := by rw [hfull2]
              rw [hcv2, hz]
          have hfull_eq : minimaxFull g pick (d + 1) b false = (some c0, XInt.fin z) := by
            rw [minimaxFull_succ_min g pick d b hgo, hP, List.foldl_cons,
              full_min_step_eq, min_child_eq, hz]
            simp only [XInt.blt_fin_posInf, if_true]
            rw [full_min_rest_stable g pick d b c0 (XInt.fin z) hz rest]
          rw [minimax_succ_min g pick d b alpha XInt.posInf t h hgo, hfull_eq, hP,
            List.foldl_cons]
          rw [min_step_eq g (minimax g pick d) b alpha
            ⟨pick (c0 :: rest), XInt.posInf, XInt.posInf, t, false⟩ c0 rfl, min_child_eq]
          dsimp only
          rw [hs_r2]
          simp only [XInt.blt_fin_posInf, if_true]
          obtain ⟨hcol_s, hval_s, htt_s⟩ := min_rest_stable g pick d b alpha
            ((minimax g pick d b alpha XInt.posInf true t).tt) c0 (XInt.fin z) hstep rest
            ⟨c0, XInt.fin z, XInt.min XInt.posInf (XInt.fin z),
              (minimax g pick d b alpha XInt.posInf true t).tt,
              XInt.ble (XInt.min XInt.posInf (XInt.fin z)) alpha⟩ rfl rfl rfl
          rw [hcol_s, hval_s, htt_s]
          refine ⟨rfl, rfl, ?_, ?_, ?_⟩
          · refine tgood_store g pick _ b (d + 1) false _ ht_r ?_
            rw [hfull_eq]
          · intro hnone
            rw [ttFind_store_self] at hnone
            cases hnone
          · intro _ _
            rw [ttFind_store_self]
            simp
    · rw [minimax_hit g pick (d + 1) b alpha XInt.posInf side t cv h]
      have hfull := ht b (d + 1) side cv h
      refine ⟨by rw [hfull], by rw [hfull], ht, fun _ => rfl, fun _ _ => by rw [h]; simp⟩

/-- C2: for every board and depth, the alpha-beta-pruned,
transposition-table-backed `minimax`, called as the source calls it
(window `(-inf, +inf)`, empty table, maximizing side), returns exactly
the `(column, score)` pair of the unpruned full minimax over the same
game tree. -/
theorem C2_pruned_equals_full (g : Game) (pick : List Nat → Nat) (d : Nat) (b : Board) :
    ((minimax g pick d b XInt.negInf XInt.posInf true []).column,
      (minimax g pick d b XInt.negInf XInt.posInf true []).score)
      = minimaxFull g pick d b true := by
  obtain ⟨h1, h2, -, -, -⟩ :=
    minimax_exact g pick d b true XInt.negInf [] (tgood_nil g pick) XInt.negInf_ne_posInf
  rw [h1, h2]

end Connect4
